import Mathlib

/-!
Verification development for the drand pulse conduit (src/ocw.py).

The Python source is shallowly embedded: Python `bytes` values are `List Nat`
(each entry a byte value), Python `int` is `Int`, and fallible operations
return `Except String`, carrying the message of the exception the Python code
would raise.  `Int.emod` (Lean's `%` on `Int`) agrees with Python's `%` and
with Python's `& 0xFF` (as `% 256`) on every integer, and Python's `<< 2` is
multiplication by 4 on every integer, so the arithmetic below is an exact
model of the CPython semantics of the source.
-/

namespace Drand

/-- Little-endian base-256 digit list of `n`, of fixed width `k`: the byte
string produced by Python `int.to_bytes(k, 'little')` on an in-range value. -/
def leBytes : Nat → Nat → List Nat
  | _, 0 => []
  | n, k + 1 => n % 256 :: leBytes (n / 256) k

/-- Model of Python `n.to_bytes(k, 'little')`: raises `OverflowError` unless
`0 ≤ n < 256 ^ k`, otherwise returns the little-endian digits. -/
def toBytesLE (n : Int) (k : Nat) : Except String (List Nat) :=
  if 0 ≤ n ∧ n < (256 : Int) ^ k then Except.ok (leBytes n.toNat k)
  else Except.error "OverflowError"

/-- Model of `encode_compact_u32` (src/ocw.py, lines 53-64).  Python's
`value << 2` is `value * 4` for every `int` (arithmetic shift), `| 0x01` /
`| 0x02` / `| 0x03` add the tag because `value * 4` has zero low bits (those
branches only see `value ≥ 64`), and `& 0xFF` is `% 256` (Python bitwise-and
of any `int` with 255), which Lean's `Int.emod` reproduces exactly. -/
def encode_compact_u32 (value : Int) : Except String (List Nat) :=
  if value < 64 then toBytesLE (value * 4 % 256) 1
  else if value < 16384 then toBytesLE (value * 4 + 1) 2
  else if value < 1073741824 then toBytesLE (value * 4 + 2) 4
  else toBytesLE (value * 4 + 3) 5

/-- A validated pulse (the dict built by `try_into_pulse`). -/
structure Pulse where
  round : Int
  randomness : List Nat
  signature : List Nat
deriving DecidableEq

/-- The payload dict passed to `encode_pulses_payload` (src/ocw.py, line 131). -/
structure PulsesPayload where
  block_number : Int
  pulses : List Pulse
  public : List Nat
deriving DecidableEq

/-- Model of `encode_pulse` (src/ocw.py, lines 66-72); its body is also the
exact per-pulse step inlined in the loop of `encode_pulses_payload`
(lines 79-84), with the same evaluation (hence exception) order. -/
def encode_pulse (p : Pulse) : Except String (List Nat) := do
  let r8 ← toBytesLE p.round 8
  let lr ← encode_compact_u32 p.randomness.length
  let ls ← encode_compact_u32 p.signature.length
  pure (r8 ++ lr ++ p.randomness ++ ls ++ p.signature)

/-- The `for p in pulses_list` accumulation loop of `encode_pulses_payload`. -/
def encodePulseSeq : List Pulse → Except String (List Nat)
  | [] => Except.ok []
  | p :: ps => do
    let e ← encode_pulse p
    let rest ← encodePulseSeq ps
    pure (e ++ rest)

/-- Model of `encode_pulses_payload` (src/ocw.py, lines 74-90): 4 raw
little-endian bytes of the block number, compact-encoded pulse count, the
pulse loop, the discriminant byte 1 (MultiSigner::Sr25519), then the raw
public key bytes. -/
def encode_pulses_payload (pp : PulsesPayload) : Except String (List Nat) := do
  let bn ← toBytesLE pp.block_number 4
  let cnt ← encode_compact_u32 pp.pulses.length
  let body ← encodePulseSeq pp.pulses
  pure (bn ++ cnt ++ body ++ 1 :: pp.public)

/-- Width, in bytes, of the compact encoding tier selected for `n`. -/
def compactWidth (n : Nat) : Nat :=
  if n < 64 then 1 else if n < 16384 then 2 else if n < 1073741824 then 4 else 5

/-- Two-bit tag of the compact encoding tier selected for `n`. -/
def compactTag (n : Nat) : Nat :=
  if n < 64 then 0 else if n < 16384 then 1 else if n < 1073741824 then 2 else 3

/-- Specification-level compact encoding of a natural number: the shifted,
tagged value written little-endian in the tier's width. -/
def compact (n : Nat) : List Nat := leBytes (n * 4 + compactTag n) (compactWidth n)

/-- Specification-level byte image of one pulse inside the payload. -/
def pulseBytes (p : Pulse) : List Nat :=
  leBytes p.round.toNat 8 ++ compact p.randomness.length ++ p.randomness ++
    compact p.signature.length ++ p.signature

/-- Specification-level byte image of a whole payload. -/
def payloadBytes (pp : PulsesPayload) : List Nat :=
  leBytes pp.block_number.toNat 4 ++ compact pp.pulses.length ++
    (pp.pulses.map pulseBytes).flatten ++ 1 :: pp.public

/-- In-range condition under which every byte conversion inside
`encode_pulse` succeeds. -/
def PulseOk (p : Pulse) : Prop :=
  0 ≤ p.round ∧ p.round < 2 ^ 64 ∧
    p.randomness.length < 2 ^ 38 ∧ p.signature.length < 2 ^ 38

/-- In-range condition under which `encode_pulses_payload` succeeds. -/
def PayloadOk (pp : PulsesPayload) : Prop :=
  0 ≤ pp.block_number ∧ pp.block_number < 2 ^ 32 ∧
    pp.pulses.length < 2 ^ 38 ∧ ∀ p ∈ pp.pulses, PulseOk p

instance (p : Pulse) : Decidable (PulseOk p) := by
  unfold PulseOk; infer_instance

instance (pp : PulsesPayload) : Decidable (PayloadOk pp) := by
  unfold PayloadOk; infer_instance

theorem leBytes_length (n k : Nat) : (leBytes n k).length = k := by
  induction k generalizing n with
  | zero => rfl
  | succ k ih => simp [leBytes, ih]

theorem toBytesLE_ok_iff (n : Int) (k : Nat) (bs : List Nat) :
    toBytesLE n k = Except.ok bs ↔
      (0 ≤ n ∧ n < (256 : Int) ^ k) ∧ bs = leBytes n.toNat k := by
  unfold toBytesLE
  split
  · simp_all
    tauto
  · simp_all

theorem toBytesLE_err (n : Int) (k : Nat) (h : ¬(0 ≤ n ∧ n < (256 : Int) ^ k)) :
    toBytesLE n k = Except.error "OverflowError" := by
  unfold toBytesLE; simp [h]

/-- On a natural-number argument below `2 ^ 38`, `encode_compact_u32` returns
exactly the specification-level compact bytes. -/
theorem encode_compact_u32_nat (n : Nat) (h : n < 2 ^ 38) :
    encode_compact_u32 n = Except.ok (compact n) := by
  unfold encode_compact_u32 compact compactWidth compactTag
  have h2561 : (256 : Int) ^ 1 = 256 := by norm_num
  have h2562 : (256 : Int) ^ 2 = 65536 := by norm_num
  have h2564 : (256 : Int) ^ 4 = 4294967296 := by norm_num
  have h2565 : (256 : Int) ^ 5 = 1099511627776 := by norm_num
  by_cases h1 : n < 64
  · have h1i : (n : Int) < 64 := by exact_mod_cast h1
    rw [if_pos h1i, if_pos h1]
    have hmod : (n : Int) * 4 % 256 = (n : Int) * 4 := by
      rw [Int.emod_eq_of_lt (by positivity) (by omega)]
    rw [hmod, toBytesLE, if_pos ⟨by positivity, by rw [h2561]; omega⟩]
    have ht : ((n : Int) * 4).toNat = n * 4 + 0 := by omega
    rw [ht, if_pos h1]
  · have h1i : ¬((n : Int) < 64) := by exact_mod_cast h1
    rw [if_neg h1i, if_neg h1]
    by_cases h2 : n < 16384
    · have h2i : (n : Int) < 16384 := by exact_mod_cast h2
      rw [if_pos h2i, if_pos h2, toBytesLE]
      rw [if_pos ⟨by positivity, by rw [h2562]; omega⟩]
      have ht : ((n : Int) * 4 + 1).toNat = n * 4 + 1 := by omega
      rw [ht, if_neg h1, if_pos h2]
    · have h2i : ¬((n : Int) < 16384) := by exact_mod_cast h2
      rw [if_neg h2i, if_neg h2]
      by_cases h3 : n < 1073741824
      · have h3i : (n : Int) < 1073741824 := by exact_mod_cast h3
        rw [if_pos h3i, if_pos h3, toBytesLE]
        rw [if_pos ⟨by positivity, by rw [h2564]; omega⟩]
        have ht : ((n : Int) * 4 + 2).toNat = n * 4 + 2 := by omega
        rw [ht, if_neg h1, if_neg h2, if_pos h3]
      · have h3i : ¬((n : Int) < 1073741824) := by exact_mod_cast h3
        rw [if_neg h3i, if_neg h3, toBytesLE]
        have hn : (n : Int) < 2 ^ 38 := by exact_mod_cast h
        rw [if_pos ⟨by positivity, by rw [h2565]; omega⟩]
        have ht : ((n : Int) * 4 + 3).toNat = n * 4 + 3 := by omega
        rw [ht, if_neg h1, if_neg h2, if_neg h3]

/-- Above `2 ^ 38` the shifted value no longer fits in 5 bytes and the Python
code raises `OverflowError` inside `to_bytes`. -/
theorem encode_compact_u32_err (v : Int) (h : (2 : Int) ^ 38 ≤ v) :
    encode_compact_u32 v = Except.error "OverflowError" := by
  unfold encode_compact_u32
  rw [if_neg (by omega), if_neg (by omega), if_neg (by omega)]
  exact toBytesLE_err _ _ (by rw [show ((256 : Int) ^ 5 = 1099511627776) from by norm_num]; omega)

/-- A negative argument falls into the first branch, is masked by `& 0xFF`,
and encodes without any error. -/
theorem encode_compact_u32_neg (v : Int) (h : v < 0) :
    encode_compact_u32 v = Except.ok (leBytes (v * 4 % 256).toNat 1) := by
  unfold encode_compact_u32
  rw [if_pos (by omega), toBytesLE]
  rw [if_pos ⟨Int.emod_nonneg _ (by norm_num), by
    have := Int.emod_lt_of_pos (v * 4) (show (0 : Int) < 256 by norm_num)
    simpa using this⟩]


theorem leBytes_inj (k : Nat) :
    ∀ m n : Nat, m < 256 ^ k → n < 256 ^ k → leBytes m k = leBytes n k → m = n := by
  induction k with
  | zero => intro m n hm hn _; simp [Nat.pow_zero] at hm hn; omega
  | succ k ih =>
    intro m n hm hn h
    rw [leBytes, leBytes] at h
    have h1 : m % 256 = n % 256 := (List.cons.injEq _ _ _ _).mp h |>.1
    have h2 : m / 256 = n / 256 := by
      refine ih _ _ ?_ ?_ ((List.cons.injEq _ _ _ _).mp h |>.2)
      · exact Nat.div_lt_of_lt_mul (by rw [← pow_succ'] ; exact hm)
      · exact Nat.div_lt_of_lt_mul (by rw [← pow_succ'] ; exact hn)
    omega

theorem compactWidth_mono {m n : Nat} (h : m ≤ n) : compactWidth m ≤ compactWidth n := by
  unfold compactWidth
  split_ifs <;> omega

theorem compact_length (n : Nat) : (compact n).length = compactWidth n := by
  unfold compact; exact leBytes_length _ _

/-- The map sending a length to itself plus the width of its compact prefix is
strictly monotone, so two length-prefixed fields of different lengths occupy
byte runs of different total sizes. -/
theorem length_add_compactWidth_strictMono {m n : Nat} (h : m < n) :
    m + compactWidth m < n + compactWidth n := by
  have := compactWidth_mono (Nat.le_of_lt h)
  omega

theorem compact_lt (n : Nat) (h : n < 2 ^ 38) : n * 4 + compactTag n < 256 ^ compactWidth n := by
  unfold compactTag compactWidth
  split_ifs <;> norm_num <;> omega

theorem compact_inj {m n : Nat} (hm : m < 2 ^ 38) (hn : n < 2 ^ 38)
    (h : compact m = compact n) : m = n := by
  have hlen : compactWidth m = compactWidth n := by
    have := congrArg List.length h
    rwa [compact_length, compact_length] at this
  unfold compact at h
  rw [hlen] at h
  have := leBytes_inj (compactWidth n) _ _ (by rw [← hlen]; exact compact_lt m hm)
    (compact_lt n hn) h
  unfold compactTag at this
  split_ifs at this <;> omega

theorem encode_pulse_ok_iff (p : Pulse) (bs : List Nat) :
    encode_pulse p = Except.ok bs ↔ PulseOk p ∧ bs = pulseBytes p := by
  constructor
  · intro h
    unfold encode_pulse at h
    rcases hr : toBytesLE p.round 8 with e | r8
    · rw [hr] at h; exact absurd h (by simp [Bind.bind, Except.bind])
    rw [hr] at h
    rcases hlr : encode_compact_u32 (p.randomness.length : Int) with e | lr
    · rw [hlr] at h; exact absurd h (by simp [Bind.bind, Except.bind])
    rw [hlr] at h
    rcases hls : encode_compact_u32 (p.signature.length : Int) with e | ls
    · rw [hls] at h; exact absurd h (by simp [Bind.bind, Except.bind])
    rw [hls] at h
    simp only [Bind.bind, Except.bind, pure, Except.pure, Except.ok.injEq] at h
    obtain ⟨hb, hr8⟩ := toBytesLE_ok_iff _ _ _ |>.mp hr
    have h256 : (256 : Int) ^ 8 = 2 ^ 64 := by norm_num
    have hrandLt : p.randomness.length < 2 ^ 38 := by
      by_contra hc
      rw [encode_compact_u32_err _ (by exact_mod_cast Nat.le_of_not_lt hc)] at hlr
      exact absurd hlr (by simp)
    have hsigLt : p.signature.length < 2 ^ 38 := by
      by_contra hc
      rw [encode_compact_u32_err _ (by exact_mod_cast Nat.le_of_not_lt hc)] at hls
      exact absurd hls (by simp)
    refine ⟨⟨hb.1, by rw [← h256]; exact hb.2, hrandLt, hsigLt⟩, ?_⟩
    rw [encode_compact_u32_nat _ hrandLt] at hlr
    rw [encode_compact_u32_nat _ hsigLt] at hls
    cases hlr; cases hls
    rw [← h, hr8]
    rfl
  · rintro ⟨⟨h1, h2, h3, h4⟩, rfl⟩
    unfold encode_pulse
    rw [show toBytesLE p.round 8 = Except.ok (leBytes p.round.toNat 8) from by
      unfold toBytesLE
      rw [if_pos ⟨h1, by rw [show ((256 : Int) ^ 8 = 2 ^ 64) from by norm_num]; exact h2⟩]]
    rw [encode_compact_u32_nat _ h3, encode_compact_u32_nat _ h4]
    rfl

theorem encodePulseSeq_ok_iff (l : List Pulse) (bs : List Nat) :
    encodePulseSeq l = Except.ok bs ↔
      (∀ p ∈ l, PulseOk p) ∧ bs = (l.map pulseBytes).flatten := by
  induction l generalizing bs with
  | nil => simp [encodePulseSeq]
  | cons p ps ih =>
    constructor
    · intro h
      unfold encodePulseSeq at h
      rcases he : encode_pulse p with e | eb
      · rw [he] at h; exact absurd h (by simp [Bind.bind, Except.bind])
      rw [he] at h
      rcases hrest : encodePulseSeq ps with e | rb
      · rw [hrest] at h; exact absurd h (by simp [Bind.bind, Except.bind])
      rw [hrest] at h
      simp only [Bind.bind, Except.bind, pure, Except.pure, Except.ok.injEq] at h
      obtain ⟨hpok, hpb⟩ := (encode_pulse_ok_iff _ _).mp he
      obtain ⟨hpsok, hpsb⟩ := (ih _).mp hrest
      refine ⟨?_, ?_⟩
      · intro q hq
        rcases List.mem_cons.mp hq with rfl | hq
        · exact hpok
        · exact hpsok q hq
      · rw [← h, hpb, hpsb]; simp
    · rintro ⟨hall, rfl⟩
      unfold encodePulseSeq
      rw [(encode_pulse_ok_iff p (pulseBytes p)).mpr ⟨hall p (List.mem_cons_self _ _), rfl⟩]
      rw [(ih ((ps.map pulseBytes).flatten)).mpr ⟨fun q hq => hall q (List.mem_cons_of_mem _ hq), rfl⟩]
      simp [Bind.bind, Except.bind, pure, Except.pure]

/-- Complete characterization of a successful payload encoding: it succeeds
exactly on in-range payloads, and then produces the specification-level
byte image. -/
theorem encode_pulses_payload_ok_iff (pp : PulsesPayload) (bs : List Nat) :
    encode_pulses_payload pp = Except.ok bs ↔ PayloadOk pp ∧ bs = payloadBytes pp := by
  constructor
  · intro h
    unfold encode_pulses_payload at h
    rcases hb : toBytesLE pp.block_number 4 with e | bnb
    · rw [hb] at h; exact absurd h (by simp [Bind.bind, Except.bind])
    rw [hb] at h
    rcases hc : encode_compact_u32 (pp.pulses.length : Int) with e | cb
    · rw [hc] at h; exact absurd h (by simp [Bind.bind, Except.bind])
    rw [hc] at h
    rcases hs : encodePulseSeq pp.pulses with e | sb
    · rw [hs] at h; exact absurd h (by simp [Bind.bind, Except.bind])
    rw [hs] at h
    simp only [Bind.bind, Except.bind, pure, Except.pure, Except.ok.injEq] at h
    obtain ⟨hbn, hbnb⟩ := toBytesLE_ok_iff _ _ _ |>.mp hb
    have hcntLt : pp.pulses.length < 2 ^ 38 := by
      by_contra hcc
      rw [encode_compact_u32_err _ (by exact_mod_cast Nat.le_of_not_lt hcc)] at hc
      exact absurd hc (by simp)
    obtain ⟨hall, hsb⟩ := (encodePulseSeq_ok_iff _ _).mp hs
    have h256 : (256 : Int) ^ 4 = 2 ^ 32 := by norm_num
    refine ⟨⟨hbn.1, by rw [← h256]; exact hbn.2, hcntLt, hall⟩, ?_⟩
    rw [encode_compact_u32_nat _ hcntLt] at hc
    cases hc
    rw [← h, hbnb, hsb]
    rfl
  · rintro ⟨⟨h1, h2, h3, h4⟩, rfl⟩
    unfold encode_pulses_payload
    rw [show toBytesLE pp.block_number 4 = Except.ok (leBytes pp.block_number.toNat 4) from by
      unfold toBytesLE
      rw [if_pos ⟨h1, by rw [show ((256 : Int) ^ 4 = 2 ^ 32) from by norm_num]; exact h2⟩]]
    rw [encode_compact_u32_nat _ h3]
    rw [(encodePulseSeq_ok_iff pp.pulses ((pp.pulses.map pulseBytes).flatten)).mpr ⟨h4, rfl⟩]
    rfl


/-- Two pulses that differ in exactly one field. -/
inductive PulseDiff : Pulse → Pulse → Prop where
  | round (r r' : Int) (a s : List Nat) (h : r ≠ r') :
      PulseDiff ⟨r, a, s⟩ ⟨r', a, s⟩
  | randomness (r : Int) (a a' s : List Nat) (h : a ≠ a') :
      PulseDiff ⟨r, a, s⟩ ⟨r, a', s⟩
  | signature (r : Int) (a s s' : List Nat) (h : s ≠ s') :
      PulseDiff ⟨r, a, s⟩ ⟨r, a, s'⟩

/-- Two payloads that differ in exactly one field: the block number, the
public key, or a single field of a single pulse. -/
inductive PayloadDiff : PulsesPayload → PulsesPayload → Prop where
  | block (b b' : Int) (ps : List Pulse) (pk : List Nat) (h : b ≠ b') :
      PayloadDiff ⟨b, ps, pk⟩ ⟨b', ps, pk⟩
  | public (b : Int) (ps : List Pulse) (pk pk' : List Nat) (h : pk ≠ pk') :
      PayloadDiff ⟨b, ps, pk⟩ ⟨b, ps, pk'⟩
  | pulse (b : Int) (l r : List Pulse) (p p' : Pulse) (pk : List Nat)
      (h : PulseDiff p p') :
      PayloadDiff ⟨b, l ++ p :: r, pk⟩ ⟨b, l ++ p' :: r, pk⟩

theorem pulseBytes_length (p : Pulse) :
    (pulseBytes p).length =
      8 + (compactWidth p.randomness.length + (p.randomness.length +
        (compactWidth p.signature.length + p.signature.length))) := by
  simp [pulseBytes, compact_length, leBytes_length]

/-- Pulses that are in range and differ in exactly one field have different
byte images. -/
theorem pulseBytes_inj_oneField {p p' : Pulse} (hp : PulseOk p) (hp' : PulseOk p')
    (d : PulseDiff p p') : pulseBytes p ≠ pulseBytes p' := by
  intro h
  cases d with
  | round r r' a s hne =>
    simp only [pulseBytes, List.append_assoc] at h
    have hcut := List.append_inj h (by rw [leBytes_length, leBytes_length])
    have h256 : (256 : Nat) ^ 8 = 2 ^ 64 := by norm_num
    have h1 : 0 ≤ r := hp.1
    have h2 : r < 2 ^ 64 := hp.2.1
    have h1' : 0 ≤ r' := hp'.1
    have h2' : r' < 2 ^ 64 := hp'.2.1
    have := leBytes_inj 8 r.toNat r'.toNat (by rw [h256]; omega) (by rw [h256]; omega) hcut.1
    exact hne (by omega)
  | randomness r a a' s hne =>
    by_cases hlen : a.length = a'.length
    · simp only [pulseBytes, List.append_assoc] at h
      have h1 := List.append_cancel_left h
      rw [show a.length = a'.length from hlen] at h1
      have h2 := List.append_cancel_left h1
      exact hne (List.append_inj h2 hlen).1
    · have hl := congrArg List.length h
      rw [pulseBytes_length, pulseBytes_length] at hl
      simp only at hl
      rcases Nat.lt_trichotomy a.length a'.length with hc | hc | hc
      · have := length_add_compactWidth_strictMono hc
        omega
      · exact hlen hc
      · have := length_add_compactWidth_strictMono hc
        omega
  | signature r a s s' hne =>
    by_cases hlen : s.length = s'.length
    · simp only [pulseBytes, List.append_assoc] at h
      have h1 := List.append_cancel_left (List.append_cancel_left (List.append_cancel_left h))
      rw [show s.length = s'.length from hlen] at h1
      have h2 := List.append_cancel_left h1
      exact hne h2
    · have hl := congrArg List.length h
      rw [pulseBytes_length, pulseBytes_length] at hl
      simp only at hl
      rcases Nat.lt_trichotomy s.length s'.length with hc | hc | hc
      · have := length_add_compactWidth_strictMono hc
        omega
      · exact hlen hc
      · have := length_add_compactWidth_strictMono hc
        omega

/-- Payloads that are in range and differ in exactly one field have different
byte images. -/
theorem payloadBytes_inj_oneField {pp pp' : PulsesPayload}
    (hok : PayloadOk pp) (hok' : PayloadOk pp') (d : PayloadDiff pp pp') :
    payloadBytes pp ≠ payloadBytes pp' := by
  intro h
  cases d with
  | block b b' ps pk hne =>
    simp only [payloadBytes, List.append_assoc] at h
    have hcut := List.append_inj h (by rw [leBytes_length, leBytes_length])
    have h256 : (256 : Nat) ^ 4 = 2 ^ 32 := by norm_num
    have h1 : 0 ≤ b := hok.1
    have h2 : b < 2 ^ 32 := hok.2.1
    have h1' : 0 ≤ b' := hok'.1
    have h2' : b' < 2 ^ 32 := hok'.2.1
    have := leBytes_inj 4 b.toNat b'.toNat (by rw [h256]; omega) (by rw [h256]; omega) hcut.1
    exact hne (by omega)
  | public b ps pk pk' hne =>
    simp only [payloadBytes, List.append_assoc] at h
    have h1 := List.append_cancel_left (List.append_cancel_left (List.append_cancel_left h))
    injection h1 with hhd htl
    exact hne htl
  | pulse b l r p p' pk hd =>
    have hcnt : (l ++ p :: r).length = (l ++ p' :: r).length := by simp
    simp only [payloadBytes, List.map_append, List.map_cons, List.flatten_append,
      List.flatten_cons, List.append_assoc] at h
    rw [hcnt] at h
    have h1 := List.append_cancel_left (List.append_cancel_left (List.append_cancel_left h))
    have hlen : (pulseBytes p).length = (pulseBytes p').length := by
      have := congrArg List.length h1
      simp only [List.length_append] at this
      omega
    have h2 := (List.append_inj h1 hlen).1
    have hpok : PulseOk p := hok.2.2.2 p (by simp)
    have hpok' : PulseOk p' := hok'.2.2.2 p' (by simp)
    exact pulseBytes_inj_oneField hpok hpok' hd h2


/-- Value of one hexadecimal digit, as accepted by Python `binascii.unhexlify`
(both cases), `none` on a non-hex character. -/
def hexDigitVal (c : Char) : Option Nat :=
  if '0' ≤ c ∧ c ≤ '9' then some (c.toNat - '0'.toNat)
  else if 'a' ≤ c ∧ c ≤ 'f' then some (c.toNat - 'a'.toNat + 10)
  else if 'A' ≤ c ∧ c ≤ 'F' then some (c.toNat - 'A'.toNat + 10)
  else none

/-- Model of Python `binascii.unhexlify`: `none` models the `binascii.Error`
raised on an odd-length string or a non-hex character. -/
def unhexlify : List Char → Option (List Nat)
  | [] => some []
  | [_] => none
  | c1 :: c2 :: rest => do
    let hi ← hexDigitVal c1
    let lo ← hexDigitVal c2
    let tl ← unhexlify rest
    pure ((16 * hi + lo) :: tl)

/-- A raw beacon JSON body as seen by `try_into_pulse`: each field is `some`
when present with the expected JSON type (`round` an integer, the other two
strings), `none` when absent. -/
structure RawResp where
  round : Option Int
  randomness : Option (List Char)
  signature : Option (List Char)
deriving DecidableEq

/-- Python dict access `resp[key]`: raises `KeyError` when the field is
absent. -/
def getField {α : Type} (o : Option α) : Except String α :=
  match o with
  | some v => Except.ok v
  | none => Except.error "KeyError"

/-- Python `binascii.unhexlify` as an exception-raising operation. -/
def unhexE (s : List Char) : Except String (List Nat) :=
  match unhexlify s with
  | some bs => Except.ok bs
  | none => Except.error "binascii.Error"

/-- Model of `try_into_pulse` (src/ocw.py, lines 40-51), with the source's
evaluation order: `round` access, `randomness` access and unhexlify,
`signature` access and unhexlify, then the 32-byte check on `randomness`. -/
def try_into_pulse (resp : RawResp) : Except String Pulse := do
  let roundNum ← getField resp.round
  let randHex ← getField resp.randomness
  let randomness ← unhexE randHex
  let sigHex ← getField resp.signature
  let signatureBytes ← unhexE sigHex
  if randomness.length ≠ 32 then Except.error "Randomness is not 32 bytes"
  else pure ⟨roundNum, randomness, signatureBytes⟩

/-- The decoded randomness field of a raw response, when present and valid. -/
def decodedRand (resp : RawResp) : Option (List Nat) :=
  resp.randomness.bind unhexlify

/-- The decoded signature field of a raw response, when present and valid. -/
def decodedSig (resp : RawResp) : Option (List Nat) :=
  resp.signature.bind unhexlify

/-- The condition under which `try_into_pulse` raises: a required field is
absent or malformed, or the randomness does not decode to 32 bytes. -/
def RespInvalid (resp : RawResp) : Prop :=
  resp.round = none ∨ decodedRand resp = none ∨ decodedSig resp = none ∨
    ∃ bs, decodedRand resp = some bs ∧ bs.length ≠ 32

theorem try_into_pulse_ok_iff (resp : RawResp) (p : Pulse) :
    try_into_pulse resp = Except.ok p ↔
      resp.round = some p.round ∧ decodedRand resp = some p.randomness ∧
        decodedSig resp = some p.signature ∧ p.randomness.length = 32 := by
  constructor
  · intro h
    unfold try_into_pulse at h
    rcases hr : resp.round with _ | rv
    · rw [hr] at h; exact absurd h (by simp [getField, Bind.bind, Except.bind])
    rw [hr] at h
    rcases hrx : resp.randomness with _ | rx
    · rw [hrx] at h; exact absurd h (by simp [getField, Bind.bind, Except.bind])
    rw [hrx] at h
    rcases hrd : unhexlify rx with _ | rb
    · rw [show getField (some rx) = Except.ok rx from rfl] at h
      simp only [Bind.bind, Except.bind, getField] at h
      rw [unhexE, hrd] at h
      exact absurd h (by simp)
    rw [show getField (some rx) = Except.ok rx from rfl] at h
    simp only [Bind.bind, Except.bind, getField] at h
    rw [unhexE, hrd] at h
    rcases hsx : resp.signature with _ | sx
    · rw [hsx] at h
      exact absurd h (by simp [getField, Bind.bind, Except.bind])
    rw [hsx] at h
    rcases hsd : unhexlify sx with _ | sb
    · simp only [getField, Bind.bind, Except.bind] at h
      rw [unhexE, hsd] at h
      exact absurd h (by simp)
    simp only [getField, Bind.bind, Except.bind] at h
    rw [unhexE, hsd] at h
    simp only [Bind.bind, Except.bind] at h
    by_cases h32 : rb.length = 32
    · rw [if_neg (by omega)] at h
      simp only [pure, Except.pure, Except.ok.injEq] at h
      subst h
      exact ⟨rfl, by simp [decodedRand, hrx, hrd], by simp [decodedSig, hsx, hsd], h32⟩
    · rw [if_pos h32] at h
      exact absurd h (by simp)
  · rintro ⟨hr, hrd, hsd, h32⟩
    rcases hrx : resp.randomness with _ | rx
    · rw [decodedRand, hrx] at hrd; exact absurd hrd (by simp)
    rcases hsx : resp.signature with _ | sx
    · rw [decodedSig, hsx] at hsd; exact absurd hsd (by simp)
    rw [decodedRand, hrx] at hrd
    rw [decodedSig, hsx] at hsd
    simp only [Option.some_bind] at hrd hsd
    unfold try_into_pulse
    rw [hr, hrx, hsx]
    simp only [getField, Bind.bind, Except.bind]
    rw [unhexE, hrd, unhexE, hsd]
    simp only [Bind.bind, Except.bind]
    rw [if_neg (by omega)]
    rfl

theorem try_into_pulse_err_iff (resp : RawResp) :
    (∃ e, try_into_pulse resp = Except.error e) ↔ RespInvalid resp := by
  constructor
  · rintro ⟨e, h⟩
    by_contra hinv
    unfold RespInvalid at hinv
    push_neg at hinv
    obtain ⟨h1, h2, h3, h4⟩ := hinv
    rcases hr : resp.round with _ | rv
    · exact h1 hr
    rcases hrd : decodedRand resp with _ | rb
    · exact h2 hrd
    rcases hsd : decodedSig resp with _ | sb
    · exact h3 hsd
    have h32 : rb.length = 32 := h4 rb hrd
    have := (try_into_pulse_ok_iff resp ⟨rv, rb, sb⟩).mpr ⟨hr, hrd, hsd, h32⟩
    rw [this] at h
    exact absurd h (by simp)
  · intro hinv
    rcases hres : try_into_pulse resp with e | p
    · exact ⟨e, rfl⟩
    obtain ⟨hr, hrd, hsd, h32⟩ := (try_into_pulse_ok_iff resp p).mp hres
    rcases hinv with h | h | h | ⟨bs, hbs, hlen⟩
    · rw [h] at hr; exact absurd hr (by simp)
    · rw [h] at hrd; exact absurd hrd (by simp)
    · rw [h] at hsd; exact absurd hsd (by simp)
    · rw [hbs] at hrd
      injection hrd with heq
      rw [← heq] at h32
      exact absurd h32 hlen


/-- Outcome of one HTTP attempt against one endpoint: `success` is an HTTP
200 whose body parsed as JSON, `failure` covers both a transport error
(`requests.exceptions.RequestException`) and any non-200 status. -/
inductive AttemptOutcome where
  | success (body : RawResp)
  | failure
deriving DecidableEq

/-- The message of the exception raised when every endpoint fails. -/
def noEndpointMsg : String := "No valid response from any Drand endpoint"

/-- Model of `fetch_from_any_endpoint` (src/ocw.py, lines 26-38).  The fixed
endpoint list is abstracted as the list of attempt outcomes the endpoints
would produce, in list order, each paired with whether `time.time()` exceeds
the absolute deadline at the check that follows that attempt.  Returns the
result together with the number of endpoints actually attempted.  A
successful attempt returns immediately; a failed one continues to the next
endpoint unless the deadline check breaks the loop. -/
def fetch_from_any_endpoint : List (AttemptOutcome × Bool) → Except String RawResp × Nat
  | [] => (Except.error noEndpointMsg, 0)
  | (AttemptOutcome.success b, _) :: _ => (Except.ok b, 1)
  | (AttemptOutcome.failure, tExc) :: rest =>
    if tExc then (Except.error noEndpointMsg, 1)
    else
      let r := fetch_from_any_endpoint rest
      (r.1, r.2 + 1)

/-- An attempt that fails without exhausting the deadline. -/
def softFail (x : AttemptOutcome × Bool) : Prop :=
  x.1 = AttemptOutcome.failure ∧ x.2 = false

instance (x : AttemptOutcome × Bool) : Decidable (softFail x) := by
  unfold softFail; infer_instance

theorem fetch_first_success (pre : List (AttemptOutcome × Bool)) (b : RawResp)
    (t : Bool) (post : List (AttemptOutcome × Bool))
    (hpre : ∀ x ∈ pre, softFail x) :
    fetch_from_any_endpoint (pre ++ (AttemptOutcome.success b, t) :: post) =
      (Except.ok b, pre.length + 1) := by
  induction pre with
  | nil => rfl
  | cons x xs ih =>
    obtain ⟨h1, h2⟩ := hpre x (List.mem_cons_self _ _)
    rcases x with ⟨o, tx⟩
    simp only at h1 h2
    subst h1; subst h2
    rw [List.cons_append, fetch_from_any_endpoint]
    rw [if_neg (by simp)]
    rw [ih (fun y hy => hpre y (List.mem_cons_of_mem _ hy))]
    simp [List.length_cons]

theorem fetch_deadline_break (pre : List (AttemptOutcome × Bool))
    (post : List (AttemptOutcome × Bool)) (hpre : ∀ x ∈ pre, softFail x) :
    fetch_from_any_endpoint (pre ++ (AttemptOutcome.failure, true) :: post) =
      (Except.error noEndpointMsg, pre.length + 1) := by
  induction pre with
  | nil => rfl
  | cons x xs ih =>
    obtain ⟨h1, h2⟩ := hpre x (List.mem_cons_self _ _)
    rcases x with ⟨o, tx⟩
    simp only at h1 h2
    subst h1; subst h2
    rw [List.cons_append, fetch_from_any_endpoint]
    rw [if_neg (by simp)]
    rw [ih (fun y hy => hpre y (List.mem_cons_of_mem _ hy))]
    simp [List.length_cons]

theorem fetch_attempts_le (atts : List (AttemptOutcome × Bool)) :
    (fetch_from_any_endpoint atts).2 ≤ atts.length := by
  induction atts with
  | nil => simp [fetch_from_any_endpoint]
  | cons x xs ih =>
    rcases x with ⟨o, tx⟩
    cases o with
    | success b => simp [fetch_from_any_endpoint]
    | failure =>
      rw [fetch_from_any_endpoint]
      by_cases ht : tx = true
      · rw [if_pos ht]; simp
      · rw [if_neg ht]
        simp only [List.length_cons]
        omega

/-- The fetch fails exactly when every successful endpoint (if any) sits
behind an earlier failure at which the deadline had already passed. -/
theorem fetch_err_iff (atts : List (AttemptOutcome × Bool)) :
    (fetch_from_any_endpoint atts).1 = Except.error noEndpointMsg ↔
      ∀ k, ∀ hk : k < atts.length, ∀ b, (atts.get ⟨k, hk⟩).1 = AttemptOutcome.success b →
        ∃ j, ∃ hj : j < atts.length, j < k ∧ atts.get ⟨j, hj⟩ = (AttemptOutcome.failure, true) := by
  induction atts with
  | nil =>
    simp [fetch_from_any_endpoint]
  | cons x xs ih =>
    rcases x with ⟨o, tx⟩
    cases o with
    | success b =>
      simp only [fetch_from_any_endpoint]
      constructor
      · intro h; exact absurd h (by simp)
      · intro h
        obtain ⟨j, hj, hjk, _⟩ := h 0 (by simp) b rfl
        omega
    | failure =>
      rw [fetch_from_any_endpoint]
      by_cases ht : tx = true
      · subst ht
        rw [if_pos rfl]
        simp only [true_iff]
        intro k hk b hb
        cases k with
        | zero => exact absurd hb (by simp)
        | succ m => exact ⟨0, by simp, by omega, rfl⟩
      · have ht' : tx = false := by revert ht; cases tx <;> simp
        subst ht'
        rw [if_neg (by simp)]
        simp only
        rw [ih]
        constructor
        · intro h k hk b hb
          cases k with
          | zero => exact absurd hb (by simp)
          | succ m =>
            obtain ⟨j, hj, hjm, hget⟩ :=
              h m (by simpa using Nat.lt_of_succ_lt_succ hk) b (by simpa using hb)
            exact ⟨j + 1, by simpa using Nat.succ_lt_succ hj, by omega, by simpa using hget⟩
        · intro h m hm b hb
          obtain ⟨j, hj, hjm, hget⟩ :=
            h (m + 1) (by simpa using Nat.succ_lt_succ hm) b (by simpa using hb)
          cases j with
          | zero => exact absurd hget (by simp)
          | succ i =>
            exact ⟨i, by simpa using Nat.lt_of_succ_lt_succ hj, by omega, by simpa using hget⟩


/-- The per-cycle fetch cap (src/ocw.py, line 16). -/
def MAX_PULSES_TO_FETCH : Int := 50

/-- The on-chain state read at the start of a cycle: the two storage queries
`NextUnsignedAt` and `LastStoredRound` (with their `or 0` defaults applied). -/
structure ChainView where
  next_unsigned_at : Int
  last_stored_round : Int
deriving DecidableEq

/-- The beacon as observed through `fetch_drand_latest` and
`fetch_drand_by_round` during one cycle: either a parsed JSON body or the
`NoEndpointAvailable` exception from `fetch_from_any_endpoint`. -/
structure BeaconEnv where
  latest : Except String RawResp
  byRound : Int → Except String RawResp

/-- What one invocation of `submit_new_pulses` does. `aborted` means an
exception escaped the function before any payload was built; `submitted`
records the payload dict built at src/ocw.py line 131. -/
inductive CycleResult where
  | skippedThreshold
  | skippedNoNew
  | skippedEmpty
  | aborted (msg : String)
  | submitted (payload : PulsesPayload)
deriving DecidableEq

/-- Observable trace of one cycle: whether the `latest` endpoint fetch was
issued, which per-round fetches were issued (in order), and the outcome. -/
structure CycleTrace where
  fetchedLatest : Bool
  requestedRounds : List Int
  result : CycleResult
deriving DecidableEq

/-- The Python `range(start, start + len)` as an ascending list. -/
def rangeAsc (start : Int) (len : Nat) : List Int :=
  (List.range len).map fun (i : Nat) => start + (i : Int)

/-- The fetch-and-validate loop of src/ocw.py lines 121-124: requests rounds
in order, stops at the first fetch or validation exception.  Returns the
rounds actually requested and either the validated pulses or the error. -/
def fetchLoop (beacon : Int → Except String RawResp) :
    List Int → List Int × Except String (List Pulse)
  | [] => ([], Except.ok [])
  | r :: rs =>
    match beacon r with
    | Except.error e => ([r], Except.error e)
    | Except.ok resp =>
      match try_into_pulse resp with
      | Except.error e => ([r], Except.error e)
      | Except.ok p =>
        let rest := fetchLoop beacon rs
        (r :: rest.1, rest.2.map fun ps => p :: ps)

/-- Model of `submit_new_pulses` (src/ocw.py, lines 95-173).  Chain queries
are the `ChainView` snapshot; beacon traffic goes through `env`; signing and
extrinsic submission lie beyond the payload construction this model stops
at.  Mirrors the source's control flow: threshold check before any network
activity, latest fetch and parse, bootstrap of `last_stored_round`, no-gap
check, capped ascending fetch loop, empty-list guard, payload construction. -/
def submit_new_pulses (current_block : Int) (chain : ChainView) (env : BeaconEnv)
    (publicKey : List Nat) : CycleTrace :=
  if current_block < chain.next_unsigned_at then
    ⟨false, [], CycleResult.skippedThreshold⟩
  else
    match env.latest with
    | Except.error e => ⟨true, [], CycleResult.aborted e⟩
    | Except.ok latestRaw =>
      match try_into_pulse latestRaw with
      | Except.error e => ⟨true, [], CycleResult.aborted e⟩
      | Except.ok latestPulse =>
        let currentRound := latestPulse.round
        let lsr := if chain.last_stored_round = 0 then currentRound - 1
          else chain.last_stored_round
        if currentRound ≤ lsr then ⟨true, [], CycleResult.skippedNoNew⟩
        else
          let roundsToFetch := min (currentRound - lsr) MAX_PULSES_TO_FETCH
          let targets := rangeAsc (lsr + 1) roundsToFetch.toNat
          let looped := fetchLoop env.byRound targets
          match looped.2 with
          | Except.error e => ⟨true, looped.1, CycleResult.aborted e⟩
          | Except.ok pulses =>
            if pulses = [] then ⟨true, looped.1, CycleResult.skippedEmpty⟩
            else ⟨true, looped.1,
              CycleResult.submitted ⟨current_block, pulses, publicKey⟩⟩

/-- A target round whose fetch or validation raises. -/
def stepFails (beacon : Int → Except String RawResp) (r : Int) : Prop :=
  (∃ e, beacon r = Except.error e) ∨
    ∃ resp e, beacon r = Except.ok resp ∧ try_into_pulse resp = Except.error e

/-- One fetch-and-validate step succeeding, relating a requested round to the
pulse that entered the batch for it. -/
def stepOk (beacon : Int → Except String RawResp) (r : Int) (p : Pulse) : Prop :=
  ∃ resp, beacon r = Except.ok resp ∧ try_into_pulse resp = Except.ok p

theorem rangeAsc_length (start : Int) (len : Nat) : (rangeAsc start len).length = len := by
  rw [rangeAsc, List.length_map, List.length_range]

theorem rangeAsc_get (start : Int) (len : Nat) (i : Nat) (h : i < (rangeAsc start len).length) :
    (rangeAsc start len).get ⟨i, h⟩ = start + i := by
  simp only [rangeAsc, List.get_eq_getElem, List.getElem_map, List.getElem_range]

theorem rangeAsc_succ (start : Int) (n : Nat) :
    rangeAsc start (n + 1) = start :: rangeAsc (start + 1) n := by
  unfold rangeAsc
  rw [List.range_succ_eq_map, List.map_cons, List.map_map]
  refine congrArg₂ _ (by simp) ?_
  apply List.map_congr_left
  intro i hi
  simp only [Function.comp_apply]
  push_cast
  ring

theorem rangeAsc_chain (len : Nat) :
    ∀ start : Int, List.Chain' (fun a b => b = a + 1) (rangeAsc start len) := by
  induction len with
  | zero => intro start; simp [rangeAsc]
  | succ n ih =>
    intro start
    rw [rangeAsc_succ]
    cases n with
    | zero => simp [rangeAsc]
    | succ m =>
      rw [rangeAsc_succ]
      refine List.chain'_cons.mpr ⟨rfl, ?_⟩
      rw [← rangeAsc_succ]
      exact ih (start + 1)

theorem fetchLoop_ok (beacon : Int → Except String RawResp) (ts : List Int)
    (reqs : List Int) (ps : List Pulse)
    (h : fetchLoop beacon ts = (reqs, Except.ok ps)) :
    reqs = ts ∧ List.Forall₂ (stepOk beacon) ts ps := by
  induction ts generalizing reqs ps with
  | nil =>
    rw [fetchLoop] at h
    injection h with h1 h2
    injection h2 with h2
    subst h1; subst h2
    exact ⟨rfl, List.Forall₂.nil⟩
  | cons t ts ih =>
    rw [fetchLoop] at h
    rcases hb : beacon t with e | resp
    · rw [hb] at h
      simp only at h
      exact absurd (congrArg Prod.snd h) (by simp)
    rw [hb] at h
    simp only at h
    rcases hp : try_into_pulse resp with e | p
    · rw [hp] at h
      simp only at h
      exact absurd (congrArg Prod.snd h) (by simp)
    rw [hp] at h
    simp only at h
    have h1 := congrArg Prod.fst h
    have h2 := congrArg Prod.snd h
    simp only at h1 h2
    rcases hrest : (fetchLoop beacon ts).2 with e | ps'
    · rw [hrest] at h2
      exact absurd h2 (by simp [Except.map])
    rw [hrest] at h2
    simp only [Except.map] at h2
    injection h2 with h2
    obtain ⟨hr, hf⟩ := ih (fetchLoop beacon ts).1 ps' (by rw [← hrest])
    subst h1
    refine ⟨by rw [hr], ?_⟩
    rw [← h2]
    exact List.Forall₂.cons ⟨resp, hb, hp⟩ hf

theorem fetchLoop_all_ok (beacon : Int → Except String RawResp) (ts : List Int)
    (h : ∀ r ∈ ts, ∃ p, stepOk beacon r p) :
    ∃ ps, fetchLoop beacon ts = (ts, Except.ok ps) := by
  induction ts with
  | nil => exact ⟨[], rfl⟩
  | cons t ts ih =>
    obtain ⟨p, resp, hb, hp⟩ := h t (List.mem_cons_self _ _)
    obtain ⟨ps, hps⟩ := ih fun r hr => h r (List.mem_cons_of_mem _ hr)
    refine ⟨p :: ps, ?_⟩
    rw [fetchLoop, hb]
    simp only
    rw [hp]
    simp only
    rw [hps]
    simp [Except.map]

theorem fetchLoop_fails (beacon : Int → Except String RawResp) (ts : List Int)
    (h : ∃ r ∈ ts, stepFails beacon r) :
    ∃ e, (fetchLoop beacon ts).2 = Except.error e := by
  induction ts with
  | nil => simp at h
  | cons t ts ih =>
    by_cases hf : stepFails beacon t
    · rcases hf with ⟨e, he⟩ | ⟨resp, e, hresp, he⟩
      · refine ⟨e, ?_⟩
        rw [fetchLoop, he]
      · refine ⟨e, ?_⟩
        rw [fetchLoop, hresp]
        simp only
        rw [he]
    · rcases hb : beacon t with e | resp
      · exact absurd (Or.inl ⟨e, hb⟩) hf
      rcases hp : try_into_pulse resp with e | p
      · exact absurd (Or.inr ⟨resp, e, hb, hp⟩) hf
      obtain ⟨r, hr, hrf⟩ := h
      have hrts : r ∈ ts := by
        rcases List.mem_cons.mp hr with rfl | hmem
        · exact absurd hrf hf
        · exact hmem
      obtain ⟨e, he⟩ := ih ⟨r, hrts, hrf⟩
      refine ⟨e, ?_⟩
      rw [fetchLoop, hb]
      simp only
      rw [hp]
      simp only
      rw [he]
      simp [Except.map]


theorem submit_below (current_block : Int) (chain : ChainView) (env : BeaconEnv)
    (pk : List Nat) (h : current_block < chain.next_unsigned_at) :
    submit_new_pulses current_block chain env pk =
      ⟨false, [], CycleResult.skippedThreshold⟩ := by
  rw [submit_new_pulses, if_pos h]

theorem submit_latest_fetch_err (current_block : Int) (chain : ChainView)
    (env : BeaconEnv) (pk : List Nat) (e : String)
    (h1 : ¬ current_block < chain.next_unsigned_at)
    (h2 : env.latest = Except.error e) :
    submit_new_pulses current_block chain env pk =
      ⟨true, [], CycleResult.aborted e⟩ := by
  rw [submit_new_pulses, if_neg h1, h2]

theorem submit_latest_parse_err (current_block : Int) (chain : ChainView)
    (env : BeaconEnv) (pk : List Nat) (raw : RawResp) (e : String)
    (h1 : ¬ current_block < chain.next_unsigned_at)
    (h2 : env.latest = Except.ok raw)
    (h3 : try_into_pulse raw = Except.error e) :
    submit_new_pulses current_block chain env pk =
      ⟨true, [], CycleResult.aborted e⟩ := by
  rw [submit_new_pulses, if_neg h1, h2]
  simp only
  rw [h3]

theorem submit_no_new (current_block : Int) (chain : ChainView) (env : BeaconEnv)
    (pk : List Nat) (raw : RawResp) (lp : Pulse) (lsr : Int)
    (h1 : ¬ current_block < chain.next_unsigned_at)
    (h2 : env.latest = Except.ok raw)
    (h3 : try_into_pulse raw = Except.ok lp)
    (hlsr : (if chain.last_stored_round = 0 then lp.round - 1
      else chain.last_stored_round) = lsr)
    (h4 : lp.round ≤ lsr) :
    submit_new_pulses current_block chain env pk =
      ⟨true, [], CycleResult.skippedNoNew⟩ := by
  rw [submit_new_pulses, if_neg h1, h2]
  simp only
  rw [h3]
  simp only
  rw [hlsr, if_pos h4]

/-- The list of rounds the eligible branch targets. -/
def targetRounds (lsr latestRound : Int) : List Int :=
  rangeAsc (lsr + 1) (min (latestRound - lsr) MAX_PULSES_TO_FETCH).toNat

theorem submit_eligible_loop_err (current_block : Int) (chain : ChainView)
    (env : BeaconEnv) (pk : List Nat) (raw : RawResp) (lp : Pulse) (lsr : Int)
    (reqs : List Int) (e : String)
    (h1 : ¬ current_block < chain.next_unsigned_at)
    (h2 : env.latest = Except.ok raw)
    (h3 : try_into_pulse raw = Except.ok lp)
    (hlsr : (if chain.last_stored_round = 0 then lp.round - 1
      else chain.last_stored_round) = lsr)
    (h4 : ¬ lp.round ≤ lsr)
    (hloop : fetchLoop env.byRound (targetRounds lsr lp.round) = (reqs, Except.error e)) :
    submit_new_pulses current_block chain env pk =
      ⟨true, reqs, CycleResult.aborted e⟩ := by
  rw [submit_new_pulses, if_neg h1, h2]
  simp only
  rw [h3]
  simp only
  rw [hlsr, if_neg h4]
  rw [show rangeAsc (lsr + 1) (min (lp.round - lsr) MAX_PULSES_TO_FETCH).toNat =
    targetRounds lsr lp.round from rfl]
  rw [hloop]

theorem submit_eligible_loop_ok (current_block : Int) (chain : ChainView)
    (env : BeaconEnv) (pk : List Nat) (raw : RawResp) (lp : Pulse) (lsr : Int)
    (reqs : List Int) (ps : List Pulse)
    (h1 : ¬ current_block < chain.next_unsigned_at)
    (h2 : env.latest = Except.ok raw)
    (h3 : try_into_pulse raw = Except.ok lp)
    (hlsr : (if chain.last_stored_round = 0 then lp.round - 1
      else chain.last_stored_round) = lsr)
    (h4 : ¬ lp.round ≤ lsr)
    (hloop : fetchLoop env.byRound (targetRounds lsr lp.round) = (reqs, Except.ok ps))
    (hne : ps ≠ []) :
    submit_new_pulses current_block chain env pk =
      ⟨true, reqs, CycleResult.submitted ⟨current_block, ps, pk⟩⟩ := by
  rw [submit_new_pulses, if_neg h1, h2]
  simp only
  rw [h3]
  simp only
  rw [hlsr, if_neg h4]
  rw [show rangeAsc (lsr + 1) (min (lp.round - lsr) MAX_PULSES_TO_FETCH).toNat =
    targetRounds lsr lp.round from rfl]
  rw [hloop]
  simp only
  rw [if_neg hne]


theorem submit_eligible_loop_empty (current_block : Int) (chain : ChainView)
    (env : BeaconEnv) (pk : List Nat) (raw : RawResp) (lp : Pulse) (lsr : Int)
    (reqs : List Int)
    (h1 : ¬ current_block < chain.next_unsigned_at)
    (h2 : env.latest = Except.ok raw)
    (h3 : try_into_pulse raw = Except.ok lp)
    (hlsr : (if chain.last_stored_round = 0 then lp.round - 1
      else chain.last_stored_round) = lsr)
    (h4 : ¬ lp.round ≤ lsr)
    (hloop : fetchLoop env.byRound (targetRounds lsr lp.round) = (reqs, Except.ok [])) :
    submit_new_pulses current_block chain env pk =
      ⟨true, reqs, CycleResult.skippedEmpty⟩ := by
  rw [submit_new_pulses, if_neg h1, h2]
  simp only
  rw [h3]
  simp only
  rw [hlsr, if_neg h4]
  rw [show rangeAsc (lsr + 1) (min (lp.round - lsr) MAX_PULSES_TO_FETCH).toNat =
    targetRounds lsr lp.round from rfl]
  rw [hloop]
  simp only
  rw [if_pos trivial]

/-- Inversion: everything that must have happened inside a cycle whose result
is a submitted payload. -/
theorem submit_submitted_inv (current_block : Int) (chain : ChainView)
    (env : BeaconEnv) (pk : List Nat) (pl : PulsesPayload)
    (h : (submit_new_pulses current_block chain env pk).result =
      CycleResult.submitted pl) :
    ∃ raw lp lsr reqs,
      ¬ current_block < chain.next_unsigned_at ∧
      env.latest = Except.ok raw ∧ try_into_pulse raw = Except.ok lp ∧
      (if chain.last_stored_round = 0 then lp.round - 1
        else chain.last_stored_round) = lsr ∧
      ¬ lp.round ≤ lsr ∧
      fetchLoop env.byRound (targetRounds lsr lp.round) = (reqs, Except.ok pl.pulses) ∧
      pl.pulses ≠ [] ∧ pl.block_number = current_block ∧ pl.public = pk ∧
      submit_new_pulses current_block chain env pk =
        ⟨true, reqs, CycleResult.submitted pl⟩ := by
  rw [submit_new_pulses] at h
  split at h
  · exact absurd h (by simp)
  next h1 =>
    split at h
    next e heq => exact absurd h (by simp)
    next raw heq =>
      split at h
      next e heq2 => exact absurd h (by simp)
      next lp heq2 =>
        simp only at h
        set lsr := (if chain.last_stored_round = 0 then lp.round - 1
          else chain.last_stored_round) with hlsr
        split at h
        next hle => exact absurd h (by simp)
        next hgt =>
          split at h
          next e heq3 => exact absurd h (by simp)
          next pulses heq3 =>
            split at h
            next hemp => exact absurd h (by simp)
            next hne =>
              simp only at h
              injection h with hpl
              subst hpl
              have hloop : fetchLoop env.byRound (targetRounds lsr lp.round) =
                  ((fetchLoop env.byRound (targetRounds lsr lp.round)).1,
                    Except.ok pulses) := by
                rw [← heq3]
                rfl
              refine ⟨raw, lp, lsr, _, h1, heq, heq2, hlsr.symm, hgt, hloop, hne,
                rfl, rfl, ?_⟩
              exact submit_eligible_loop_ok current_block chain env pk raw lp lsr _
                pulses h1 heq heq2 hlsr.symm hgt hloop hne


instance {e a : Type} [DecidableEq e] [DecidableEq a] : DecidableEq (Except e a) := fun x y =>
  match x, y with
  | Except.error u, Except.error v =>
    if h : u = v then Decidable.isTrue (by rw [h])
    else Decidable.isFalse (by intro hc; injection hc; exact h (by assumption))
  | Except.error _, Except.ok _ => Decidable.isFalse (by intro hc; exact Except.noConfusion hc)
  | Except.ok _, Except.error _ => Decidable.isFalse (by intro hc; exact Except.noConfusion hc)
  | Except.ok u, Except.ok v =>
    if h : u = v then Decidable.isTrue (by rw [h])
    else Decidable.isFalse (by intro hc; injection hc; exact h (by assumption))

theorem compactTag_lt (n : Nat) : compactTag n < 4 := by
  unfold compactTag
  split_ifs <;> omega

theorem compactWidth_pos (n : Nat) : 0 < compactWidth n := by
  unfold compactWidth
  split_ifs <;> omega

theorem compact_headI (n : Nat) : (compact n).headI % 4 = compactTag n := by
  unfold compact
  obtain ⟨k, hk⟩ : ∃ k, compactWidth n = k + 1 :=
    ⟨compactWidth n - 1, by have := compactWidth_pos n; omega⟩
  rw [hk, leBytes]
  simp only [List.headI]
  rw [Nat.mod_mod_of_dvd _ (by norm_num)]
  have := compactTag_lt n
  omega

/-- C3.  For every value in `[0, 2 ^ 38)`, `encode_compact_u32` selects the
tier by magnitude as in the table of section 4.1: the output is
`(value * 4 + tag)` written little-endian, its byte length is the tier
width, its low two bits are the tier tag, and the four tiers are
`[0, 64) ↦ (1 byte, tag 0)`, `[64, 16384) ↦ (2 bytes, tag 1)`,
`[16384, 2 ^ 30) ↦ (4 bytes, tag 2)`, `[2 ^ 30, 2 ^ 38) ↦ (5 bytes, tag 3)`.
(Amended from the claim: above `2 ^ 38` the code raises `OverflowError`
instead of producing the 5-byte tier — see the counterexample.) -/
theorem c3_compact_tiers (v : Int) (h0 : 0 ≤ v) (hub : v < 2 ^ 38) :
    (encode_compact_u32 v =
        Except.ok (leBytes (v.toNat * 4 + compactTag v.toNat) (compactWidth v.toNat)) ∧
      (leBytes (v.toNat * 4 + compactTag v.toNat) (compactWidth v.toNat)).length =
        compactWidth v.toNat ∧
      (leBytes (v.toNat * 4 + compactTag v.toNat) (compactWidth v.toNat)).headI % 4 =
        compactTag v.toNat) ∧
    (v < 64 → compactWidth v.toNat = 1 ∧ compactTag v.toNat = 0) ∧
    (64 ≤ v → v < 16384 → compactWidth v.toNat = 2 ∧ compactTag v.toNat = 1) ∧
    (16384 ≤ v → v < 1073741824 → compactWidth v.toNat = 4 ∧ compactTag v.toNat = 2) ∧
    (1073741824 ≤ v → compactWidth v.toNat = 5 ∧ compactTag v.toNat = 3) := by
  have hn : v.toNat < 2 ^ 38 := by omega
  refine ⟨⟨?_, leBytes_length _ _, compact_headI v.toNat⟩, ?_, ?_, ?_, ?_⟩
  · rw [show v = ((v.toNat : Nat) : Int) from by omega]
    exact encode_compact_u32_nat v.toNat hn
  · intro h
    have h1 : v.toNat < 64 := by omega
    exact ⟨by unfold compactWidth; rw [if_pos h1], by unfold compactTag; rw [if_pos h1]⟩
  · intro h h2
    have h1 : ¬ v.toNat < 64 := by omega
    have h2n : v.toNat < 16384 := by omega
    exact ⟨by unfold compactWidth; rw [if_neg h1, if_pos h2n],
      by unfold compactTag; rw [if_neg h1, if_pos h2n]⟩
  · intro h h3
    have h1 : ¬ v.toNat < 64 := by omega
    have h2 : ¬ v.toNat < 16384 := by omega
    have h3n : v.toNat < 1073741824 := by omega
    exact ⟨by unfold compactWidth; rw [if_neg h1, if_neg h2, if_pos h3n],
      by unfold compactTag; rw [if_neg h1, if_neg h2, if_pos h3n]⟩
  · intro h
    have h1 : ¬ v.toNat < 64 := by omega
    have h2 : ¬ v.toNat < 16384 := by omega
    have h3 : ¬ v.toNat < 1073741824 := by omega
    exact ⟨by unfold compactWidth; rw [if_neg h1, if_neg h2, if_neg h3],
      by unfold compactTag; rw [if_neg h1, if_neg h2, if_neg h3]⟩

/-- C3 counterexample to the claim as stated: at `2 ^ 38` (a non-negative
value of the `≥ 2 ^ 30` tier) the code does not produce 5 bytes with tag
`0b11` — the shifted value no longer fits in 5 bytes and `to_bytes` raises
`OverflowError`. -/
theorem c3_compact_tiers_counterexample :
    encode_compact_u32 ((2 : Int) ^ 38) = Except.error "OverflowError" :=
  encode_compact_u32_err _ le_rfl

/-- C3 witness: the tier boundary values of the table. -/
theorem c3_compact_tiers_witness :
    encode_compact_u32 0 = Except.ok [0] ∧
    encode_compact_u32 63 = Except.ok [252] ∧
    encode_compact_u32 64 = Except.ok [1, 1] ∧
    encode_compact_u32 16383 = Except.ok [253, 255] ∧
    encode_compact_u32 16384 = Except.ok [2, 0, 1, 0] ∧
    encode_compact_u32 1073741823 = Except.ok [254, 255, 255, 255] ∧
    encode_compact_u32 1073741824 = Except.ok [3, 0, 0, 0, 1] := by
  refine ⟨?_, ?_, ?_, ?_, ?_, ?_, ?_⟩
  · rw [(c3_compact_tiers 0 (by norm_num) (by norm_num)).1.1]; decide
  · rw [(c3_compact_tiers 63 (by norm_num) (by norm_num)).1.1]; decide
  · rw [(c3_compact_tiers 64 (by norm_num) (by norm_num)).1.1]; decide
  · rw [(c3_compact_tiers 16383 (by norm_num) (by norm_num)).1.1]; decide
  · rw [(c3_compact_tiers 16384 (by norm_num) (by norm_num)).1.1]; decide
  · rw [(c3_compact_tiers 1073741823 (by norm_num) (by norm_num)).1.1]; decide
  · rw [(c3_compact_tiers 1073741824 (by norm_num) (by norm_num)).1.1]; decide

/-- C4 (amended).  `encode_compact_u32` returns bytes exactly on inputs below
`2 ^ 38`: it never raises on a negative value (the claimed `EncodingError`
does not exist — the `& 0xFF` mask silently wraps negatives into one byte),
and it raises `OverflowError` on every value of `2 ^ 38` and above. -/
theorem c4_compact_totality (v : Int) :
    (∃ bs, encode_compact_u32 v = Except.ok bs) ↔ v < 2 ^ 38 := by
  constructor
  · rintro ⟨bs, hbs⟩
    by_contra hc
    rw [encode_compact_u32_err v (by omega)] at hbs
    exact absurd hbs (by simp)
  · intro h
    by_cases hneg : v < 0
    · exact ⟨_, encode_compact_u32_neg v hneg⟩
    · refine ⟨compact v.toNat, ?_⟩
      rw [show v = ((v.toNat : Nat) : Int) from by omega]
      exact encode_compact_u32_nat v.toNat (by omega)

/-- C4 counterexample to the claim as stated: the negative value `-1` does
not raise (it silently returns the byte `252`), and the non-negative value
`2 ^ 38` raises, so "fails exactly on negatives, total on non-negatives" is
false in both directions. -/
theorem c4_compact_totality_counterexample :
    encode_compact_u32 (-1) = Except.ok [252] ∧
    encode_compact_u32 ((2 : Int) ^ 38) = Except.error "OverflowError" :=
  ⟨by decide, encode_compact_u32_err _ le_rfl⟩

/-- C4 witness: a concrete in-range value on which the amended totality
equivalence produces bytes. -/
theorem c4_compact_totality_witness :
    ∃ bs, encode_compact_u32 300 = Except.ok bs :=
  (c4_compact_totality 300).mpr (by norm_num)

/-- C1 (amended with the length bounds `< 2 ^ 38` on the pulse count and the
byte fields, which the counterexample forces).  On an in-range payload the
encoder returns exactly: the block number as 4 little-endian bytes, the
compact pulse count, then per pulse its round as 8 little-endian bytes, the
compact randomness length and raw randomness, the compact signature length
and raw signature, then the discriminant byte 1 (Sr25519), then the raw
public key bytes. -/
theorem c1_payload_layout (pp : PulsesPayload)
    (hb0 : 0 ≤ pp.block_number) (hb : pp.block_number < 2 ^ 32)
    (hr : ∀ p ∈ pp.pulses, 0 ≤ p.round ∧ p.round < 2 ^ 64)
    (hf : ∀ p ∈ pp.pulses, p.randomness.length < 2 ^ 38 ∧ p.signature.length < 2 ^ 38)
    (hc : pp.pulses.length < 2 ^ 38) :
    encode_pulses_payload pp = Except.ok
      (leBytes pp.block_number.toNat 4 ++ compact pp.pulses.length ++
        (pp.pulses.map fun p =>
          leBytes p.round.toNat 8 ++ compact p.randomness.length ++ p.randomness ++
            compact p.signature.length ++ p.signature).flatten ++
        1 :: pp.public) :=
  (encode_pulses_payload_ok_iff pp _).mpr
    ⟨⟨hb0, hb, hc, fun p hp => ⟨(hr p hp).1, (hr p hp).2, (hf p hp).1, (hf p hp).2⟩⟩, rfl⟩

theorem encodePulseSeq_head_err (p : Pulse) (ps : List Pulse) (e : String)
    (h : encode_pulse p = Except.error e) :
    encodePulseSeq (p :: ps) = Except.error e := by
  unfold encodePulseSeq
  rw [h]
  rfl

theorem encode_pulse_rand_err (p : Pulse) (e : String)
    (h0 : 0 ≤ p.round) (h1 : p.round < 2 ^ 64)
    (hr : encode_compact_u32 (p.randomness.length : Int) = Except.error e) :
    encode_pulse p = Except.error e := by
  unfold encode_pulse
  rw [show toBytesLE p.round 8 = Except.ok (leBytes p.round.toNat 8) from by
    unfold toBytesLE
    rw [if_pos ⟨h0, by rw [show ((256 : Int) ^ 8 = 2 ^ 64) from by norm_num]; exact h1⟩]]
  simp only [Bind.bind, Except.bind]
  rw [hr]

theorem encode_pulses_payload_seq_err (pp : PulsesPayload) (e : String)
    (h0 : 0 ≤ pp.block_number) (h1 : pp.block_number < 2 ^ 32)
    (hc : pp.pulses.length < 2 ^ 38)
    (hs : encodePulseSeq pp.pulses = Except.error e) :
    encode_pulses_payload pp = Except.error e := by
  unfold encode_pulses_payload
  rw [show toBytesLE pp.block_number 4 = Except.ok (leBytes pp.block_number.toNat 4) from by
    unfold toBytesLE
    rw [if_pos ⟨h0, by rw [show ((256 : Int) ^ 4 = 2 ^ 32) from by norm_num]; exact h1⟩]]
  simp only [Bind.bind, Except.bind]
  rw [encode_compact_u32_nat _ hc]
  simp only
  rw [hs]

/-- C1 counterexample to the claim as stated for arbitrary byte strings: a
payload whose (in-range) fields include a randomness of `2 ^ 38` bytes makes
the length prefix itself overflow, so the function raises `OverflowError`
instead of returning the layout. -/
theorem c1_payload_layout_counterexample :
    encode_pulses_payload ⟨0, [⟨0, List.replicate (2 ^ 38) 0, []⟩], []⟩ =
      Except.error "OverflowError" := by
  apply encode_pulses_payload_seq_err
  · exact le_refl 0
  · norm_num
  · rw [show (⟨0, [⟨0, List.replicate (2 ^ 38) 0, []⟩], []⟩ : PulsesPayload).pulses =
      [⟨0, List.replicate (2 ^ 38) 0, []⟩] from rfl]
    rw [List.length_singleton]
    norm_num
  · apply encodePulseSeq_head_err
    apply encode_pulse_rand_err
    · exact le_refl 0
    · norm_num
    · rw [show (⟨0, List.replicate (2 ^ 38) 0, []⟩ : Pulse).randomness =
        List.replicate (2 ^ 38) 0 from rfl]
      rw [List.length_replicate]
      exact encode_compact_u32_err _ (by norm_num)

def wp1 : Pulse := ⟨3, List.replicate 32 5, [1, 2]⟩

def wpay : PulsesPayload := ⟨9, [wp1], [4, 4]⟩

/-- C1 witness: the layout evaluated on a concrete one-pulse payload. -/
theorem c1_payload_layout_witness :
    encode_pulses_payload wpay = Except.ok
      ([9, 0, 0, 0] ++ [4] ++
        ([3, 0, 0, 0, 0, 0, 0, 0] ++ [128] ++ List.replicate 32 5 ++ [8] ++ [1, 2]) ++
        1 :: [4, 4]) := by
  rw [c1_payload_layout wpay (by decide) (by decide) (by decide) (by decide) (by decide)]
  decide

/-- C9.  Payload encoding is a pure function (trivially, it is a function of
the payload value alone), and on payloads that both encode successfully and
differ in exactly one field — block number, one pulse's round, randomness or
signature, or the public key — the encoded outputs differ. -/
theorem c9_encoding_functional :
    (∀ pp : PulsesPayload, encode_pulses_payload pp = encode_pulses_payload pp) ∧
    ∀ pp pp' : PulsesPayload, PayloadDiff pp pp' → ∀ bs bs' : List Nat,
      encode_pulses_payload pp = Except.ok bs →
      encode_pulses_payload pp' = Except.ok bs' → bs ≠ bs' := by
  refine ⟨fun pp => rfl, ?_⟩
  intro pp pp' hd bs bs' h h'
  obtain ⟨hok, rfl⟩ := (encode_pulses_payload_ok_iff pp bs).mp h
  obtain ⟨hok', rfl⟩ := (encode_pulses_payload_ok_iff pp' bs').mp h'
  exact payloadBytes_inj_oneField hok hok' hd

def wpay1 : PulsesPayload := ⟨10, [wp1], [4, 4]⟩

/-- C9 witness: two payloads differing only in the block number encode to
different byte strings. -/
theorem c9_encoding_functional_witness : payloadBytes wpay ≠ payloadBytes wpay1 :=
  c9_encoding_functional.2 wpay wpay1
    (PayloadDiff.block 9 10 [wp1] [4, 4] (by decide)) _ _
    ((encode_pulses_payload_ok_iff wpay _).mpr ⟨by decide, rfl⟩)
    ((encode_pulses_payload_ok_iff wpay1 _).mpr ⟨by decide, rfl⟩)


/-- C5.  `try_into_pulse` fails exactly when a required field is absent or
malformed or the randomness does not decode to 32 bytes; on success the
returned pulse carries the decoded input fields unchanged. -/
theorem c5_validator (resp : RawResp) :
    ((∃ e, try_into_pulse resp = Except.error e) ↔ RespInvalid resp) ∧
    ∀ p : Pulse, try_into_pulse resp = Except.ok p →
      resp.round = some p.round ∧ decodedRand resp = some p.randomness ∧
        decodedSig resp = some p.signature ∧ p.randomness.length = 32 :=
  ⟨try_into_pulse_err_iff resp, fun p h => (try_into_pulse_ok_iff resp p).mp h⟩

/-- The all-zero 64-character hex string used by the concrete scenarios. -/
def hex64 : List Char := List.replicate 64 '0'

/-- Thirty-two zero bytes. -/
def zeros32 : List Nat := List.replicate 32 0

/-- A well-formed beacon body carrying round `r`, the all-zero randomness and
an empty signature. -/
def goodRaw (r : Int) : RawResp := ⟨some r, some hex64, some []⟩

theorem hex64_unhex : unhexlify hex64 = some zeros32 := by decide

theorem goodRaw_parse (r : Int) : try_into_pulse (goodRaw r) = Except.ok ⟨r, zeros32, []⟩ := by
  apply (try_into_pulse_ok_iff _ _).mpr
  refine ⟨rfl, ?_, ?_, ?_⟩
  · show (some hex64).bind unhexlify = some zeros32
    rw [Option.some_bind, hex64_unhex]
  · show (some ([] : List Char)).bind unhexlify = some ([] : List Nat)
    rw [Option.some_bind]
    rfl
  · show zeros32.length = 32
    decide

/-- C5 witness: a concrete valid response round-trips unchanged. -/
theorem c5_validator_witness :
    (goodRaw 3).round = some (3 : Int) ∧
    decodedRand (goodRaw 3) = some zeros32 ∧
    decodedSig (goodRaw 3) = some [] ∧ zeros32.length = 32 :=
  (c5_validator (goodRaw 3)).2 ⟨3, zeros32, []⟩ (goodRaw_parse 3)

/-- C6.  The failover fetch iterates the endpoint list in order: the first
HTTP-200 endpoint after only soft (deadline-respecting) failures wins and
ends the iteration after exactly that many attempts; a failure at which the
deadline has passed stops early with the no-endpoint error; at most one
attempt is made per endpoint; and the fetch fails with the no-endpoint error
exactly when every success in the list (if any) is preceded by a failure at
which the deadline had passed — in particular when the list is exhausted
without a success. -/
theorem c6_failover (atts : List (AttemptOutcome × Bool)) :
    (∀ pre b t post, atts = pre ++ (AttemptOutcome.success b, t) :: post →
      (∀ x ∈ pre, softFail x) →
      fetch_from_any_endpoint atts = (Except.ok b, pre.length + 1)) ∧
    (∀ pre post, atts = pre ++ (AttemptOutcome.failure, true) :: post →
      (∀ x ∈ pre, softFail x) →
      fetch_from_any_endpoint atts = (Except.error noEndpointMsg, pre.length + 1)) ∧
    (fetch_from_any_endpoint atts).2 ≤ atts.length ∧
    ((fetch_from_any_endpoint atts).1 = Except.error noEndpointMsg ↔
      ∀ k, ∀ hk : k < atts.length, ∀ b,
        (atts.get ⟨k, hk⟩).1 = AttemptOutcome.success b →
        ∃ j, ∃ hj : j < atts.length, j < k ∧
          atts.get ⟨j, hj⟩ = (AttemptOutcome.failure, true)) :=
  ⟨fun pre b t post heq hpre => by rw [heq]; exact fetch_first_success pre b t post hpre,
   fun pre post heq hpre => by rw [heq]; exact fetch_deadline_break pre post hpre,
   fetch_attempts_le atts, fetch_err_iff atts⟩

/-- C6 witness: endpoints `[A, B, C]` with A and B failing and C succeeding
return C's body after exactly three attempts. -/
theorem c6_failover_witness :
    fetch_from_any_endpoint
      [(AttemptOutcome.failure, false), (AttemptOutcome.failure, false),
        (AttemptOutcome.success (goodRaw 1), false)] = (Except.ok (goodRaw 1), 3) :=
  (c6_failover _).1 [(AttemptOutcome.failure, false), (AttemptOutcome.failure, false)]
    (goodRaw 1) false [] rfl (by decide)

/-- C2.  Below the threshold the cycle skips with no fetch at all; otherwise,
with `last_stored_round` bootstrapped to `latest - 1` when it is zero, the
cycle skips when `latest ≤ last_stored_round`, and otherwise requests exactly
`min (latest - last_stored_round) 50` rounds, namely the ascending inclusive
range starting at `last_stored_round + 1`. -/
theorem c2_gate_decision (current_block : Int) (chain : ChainView) (env : BeaconEnv)
    (pk : List Nat) :
    (current_block < chain.next_unsigned_at →
      submit_new_pulses current_block chain env pk =
        ⟨false, [], CycleResult.skippedThreshold⟩) ∧
    ∀ raw lp, ¬ current_block < chain.next_unsigned_at →
      env.latest = Except.ok raw → try_into_pulse raw = Except.ok lp →
      ∀ lsr, (if chain.last_stored_round = 0 then lp.round - 1
        else chain.last_stored_round) = lsr →
      (lp.round ≤ lsr →
        submit_new_pulses current_block chain env pk =
          ⟨true, [], CycleResult.skippedNoNew⟩) ∧
      (¬ lp.round ≤ lsr →
        (∀ r ∈ targetRounds lsr lp.round, ∃ p, stepOk env.byRound r p) →
        (submit_new_pulses current_block chain env pk).requestedRounds =
          rangeAsc (lsr + 1) (min (lp.round - lsr) MAX_PULSES_TO_FETCH).toNat ∧
        (submit_new_pulses current_block chain env pk).requestedRounds.length =
          (min (lp.round - lsr) MAX_PULSES_TO_FETCH).toNat ∧
        List.Chain' (fun a b => b = a + 1)
          (submit_new_pulses current_block chain env pk).requestedRounds ∧
        ∀ i, ∀ hi : i < (submit_new_pulses current_block chain env pk).requestedRounds.length,
          (submit_new_pulses current_block chain env pk).requestedRounds.get ⟨i, hi⟩ =
            lsr + 1 + i) := by
  refine ⟨fun h => submit_below current_block chain env pk h, ?_⟩
  intro raw lp h1 h2 h3 lsr hlsr
  refine ⟨fun hle => submit_no_new current_block chain env pk raw lp lsr h1 h2 h3 hlsr hle, ?_⟩
  intro hgt hall
  obtain ⟨ps, hloop⟩ := fetchLoop_all_ok env.byRound (targetRounds lsr lp.round) hall
  have hreq : (submit_new_pulses current_block chain env pk).requestedRounds =
      targetRounds lsr lp.round := by
    by_cases hps : ps = []
    · subst hps
      rw [submit_eligible_loop_empty current_block chain env pk raw lp lsr _
        h1 h2 h3 hlsr hgt hloop]
    · rw [submit_eligible_loop_ok current_block chain env pk raw lp lsr _ ps
        h1 h2 h3 hlsr hgt hloop hps]
  rw [hreq]
  exact ⟨rfl, rangeAsc_length _ _, rangeAsc_chain _ _, fun i hi => rangeAsc_get _ _ i hi⟩

/-- The beacon environment in which every endpoint behaves and every
response carries the requested round; the latest round is 12. -/
def envGood : BeaconEnv := ⟨Except.ok (goodRaw 12), fun r => Except.ok (goodRaw r)⟩

/-- C2 witness: with latest round 12 and 9 rounds stored, the cycle requests
exactly rounds 10, 11, 12 in ascending order. -/
theorem c2_gate_decision_witness :
    (submit_new_pulses 7 ⟨0, 9⟩ envGood [7]).requestedRounds = [10, 11, 12] := by
  have h := ((c2_gate_decision 7 ⟨0, 9⟩ envGood [7]).2 (goodRaw 12) ⟨12, zeros32, []⟩
    (by decide) rfl (goodRaw_parse 12) 9 (by decide)).2 (by decide)
    (fun r hr => ⟨⟨r, zeros32, []⟩, goodRaw r, rfl, goodRaw_parse r⟩)
  rw [h.1]
  decide

/-- C7.  Once a cycle is eligible, a failing fetch or validation of any
single target round makes the whole cycle abort: the result is an abort, no
payload is ever submitted, and any later cycle run against the same
(unchanged) chain state and beacon produces the identical trace. -/
theorem c7_abort_on_failure (current_block : Int) (chain : ChainView) (env : BeaconEnv)
    (pk : List Nat) (raw : RawResp) (lp : Pulse) (lsr : Int)
    (h1 : ¬ current_block < chain.next_unsigned_at)
    (h2 : env.latest = Except.ok raw) (h3 : try_into_pulse raw = Except.ok lp)
    (hlsr : (if chain.last_stored_round = 0 then lp.round - 1
      else chain.last_stored_round) = lsr)
    (hgt : ¬ lp.round ≤ lsr)
    (hfail : ∃ r ∈ targetRounds lsr lp.round, stepFails env.byRound r) :
    (∃ e, (submit_new_pulses current_block chain env pk).result =
      CycleResult.aborted e) ∧
    (∀ pl, (submit_new_pulses current_block chain env pk).result ≠
      CycleResult.submitted pl) ∧
    ∀ cb2 : Int, ¬ cb2 < chain.next_unsigned_at →
      submit_new_pulses cb2 chain env pk =
        submit_new_pulses current_block chain env pk := by
  obtain ⟨e, he⟩ := fetchLoop_fails env.byRound (targetRounds lsr lp.round) hfail
  have hpair : fetchLoop env.byRound (targetRounds lsr lp.round) =
      ((fetchLoop env.byRound (targetRounds lsr lp.round)).1, Except.error e) := by
    rw [← he]
  have htr := submit_eligible_loop_err current_block chain env pk raw lp lsr _ e
    h1 h2 h3 hlsr hgt hpair
  refine ⟨⟨e, by rw [htr]⟩, fun pl => by rw [htr]; simp, fun cb2 hcb2 => ?_⟩
  rw [submit_eligible_loop_err cb2 chain env pk raw lp lsr _ e hcb2 h2 h3 hlsr hgt hpair,
    htr]

/-- The beacon environment in which the fetch of round 11 finds no endpoint
available. -/
def envFail : BeaconEnv := ⟨Except.ok (goodRaw 12),
  fun r => if r = 11 then Except.error noEndpointMsg else Except.ok (goodRaw r)⟩

/-- C7 witness: with target rounds 10-12 and round 11 failing, the concrete
cycle aborts. -/
theorem c7_abort_on_failure_witness :
    ∃ e, (submit_new_pulses 7 ⟨0, 9⟩ envFail [7]).result = CycleResult.aborted e :=
  (c7_abort_on_failure 7 ⟨0, 9⟩ envFail [7] (goodRaw 12) ⟨12, zeros32, []⟩ 9
    (by decide) rfl (goodRaw_parse 12) (by decide) (by decide)
    ⟨11, by decide, Or.inl ⟨noEndpointMsg, by decide⟩⟩).1

theorem forall2_rounds {beacon : Int → Except String RawResp}
    (honest : ∀ r resp p, beacon r = Except.ok resp →
      try_into_pulse resp = Except.ok p → p.round = r) :
    ∀ {ts : List Int} {ps : List Pulse}, List.Forall₂ (stepOk beacon) ts ps →
      ps.map Pulse.round = ts := by
  intro ts ps h
  induction h with
  | nil => rfl
  | cons h1 _ ih =>
    obtain ⟨resp, hb, hp⟩ := h1
    simp only [List.map_cons, ih, honest _ _ _ hb hp]

/-- C8 (amended).  Every payload the pipeline constructs has a non-empty
pulse list of length at most 50, and an empty candidate list short-circuits
to the empty-skip before any payload is constructed; the strictly increasing
consecutive rounds hold under the additional hypothesis (forced by the
counterexample) that each fetched response carries the round that was
requested, which the code never checks. -/
theorem c8_batch_invariant (current_block : Int) (chain : ChainView) (env : BeaconEnv)
    (pk : List Nat) :
    (∀ pl, (submit_new_pulses current_block chain env pk).result =
        CycleResult.submitted pl → pl.pulses ≠ [] ∧ pl.pulses.length ≤ 50) ∧
    ((∀ r resp p, env.byRound r = Except.ok resp → try_into_pulse resp = Except.ok p →
        p.round = r) →
      ∀ pl, (submit_new_pulses current_block chain env pk).result =
        CycleResult.submitted pl →
        List.Chain' (fun a b => b.round = a.round + 1) pl.pulses) ∧
    (∀ raw lp lsr reqs, ¬ current_block < chain.next_unsigned_at →
      env.latest = Except.ok raw → try_into_pulse raw = Except.ok lp →
      (if chain.last_stored_round = 0 then lp.round - 1
        else chain.last_stored_round) = lsr →
      ¬ lp.round ≤ lsr →
      fetchLoop env.byRound (targetRounds lsr lp.round) = (reqs, Except.ok []) →
      (submit_new_pulses current_block chain env pk).result =
        CycleResult.skippedEmpty) := by
  refine ⟨?_, ?_, ?_⟩
  · intro pl h
    obtain ⟨raw, lp, lsr, reqs, h1, h2, h3, hlsr, hgt, hloop, hne, _, _, _⟩ :=
      submit_submitted_inv current_block chain env pk pl h
    obtain ⟨hreq, hf⟩ := fetchLoop_ok env.byRound _ _ _ hloop
    refine ⟨hne, ?_⟩
    have hlen : pl.pulses.length = (targetRounds lsr lp.round).length :=
      (List.Forall₂.length_eq hf).symm
    have hMAX : MAX_PULSES_TO_FETCH = 50 := rfl
    rw [hlen, targetRounds, hMAX, rangeAsc_length]
    omega
  · intro honest pl h
    obtain ⟨raw, lp, lsr, reqs, h1, h2, h3, hlsr, hgt, hloop, hne, _, _, _⟩ :=
      submit_submitted_inv current_block chain env pk pl h
    obtain ⟨hreq, hf⟩ := fetchLoop_ok env.byRound _ _ _ hloop
    have hmap := forall2_rounds honest hf
    have hchain : List.Chain' (fun a b => b = a + 1) (pl.pulses.map Pulse.round) := by
      rw [hmap]
      exact rangeAsc_chain _ _
    rw [List.chain'_map] at hchain
    exact hchain
  · intro raw lp lsr reqs h1 h2 h3 hlsr hgt hloop
    rw [submit_eligible_loop_empty current_block chain env pk raw lp lsr reqs
      h1 h2 h3 hlsr hgt hloop]

/-- The beacon environment whose responses carry rounds other than the
requested ones: round 10 answers with round 99, everything else with
round 7; the latest round is 11. -/
def envBad : BeaconEnv := ⟨Except.ok (goodRaw 11),
  fun r => if r = 10 then Except.ok (goodRaw 99) else Except.ok (goodRaw 7)⟩

/-- C8 counterexample to the claim as stated: a cycle against a beacon whose
responses carry wrong rounds constructs a payload whose rounds 99, 7 are
neither consecutive nor increasing. -/
theorem c8_batch_invariant_counterexample :
    (submit_new_pulses 0 ⟨0, 9⟩ envBad [7]).result =
      CycleResult.submitted ⟨0, [⟨99, zeros32, []⟩, ⟨7, zeros32, []⟩], [7]⟩ ∧
    ¬ List.Chain' (fun a b => b.round = a.round + 1)
      ([⟨99, zeros32, []⟩, ⟨7, zeros32, []⟩] : List Pulse) := by
  constructor
  · decide
  · intro hc
    rw [List.chain'_cons] at hc
    exact absurd hc.1 (by decide)

/-- C8 witness: against a beacon that answers each request with the
requested round, the concrete submitted batch for rounds 10-12 is non-empty,
within the cap, and consecutive. -/
theorem c8_batch_invariant_witness :
    ([⟨10, zeros32, []⟩, ⟨11, zeros32, []⟩, ⟨12, zeros32, []⟩] : List Pulse) ≠ [] ∧
    ([⟨10, zeros32, []⟩, ⟨11, zeros32, []⟩, ⟨12, zeros32, []⟩] : List Pulse).length ≤ 50 ∧
    List.Chain' (fun a b => b.round = a.round + 1)
      ([⟨10, zeros32, []⟩, ⟨11, zeros32, []⟩, ⟨12, zeros32, []⟩] : List Pulse) := by
  have hres : (submit_new_pulses 7 ⟨0, 9⟩ envGood [7]).result =
      CycleResult.submitted ⟨7, [⟨10, zeros32, []⟩, ⟨11, zeros32, []⟩,
        ⟨12, zeros32, []⟩], [7]⟩ := by decide
  have honest : ∀ r resp p, envGood.byRound r = Except.ok resp →
      try_into_pulse resp = Except.ok p → p.round = r := by
    intro r resp p hb hp
    injection hb with hb
    rw [← hb] at hp
    rw [goodRaw_parse r] at hp
    injection hp with hp
    rw [← hp]
  have ha := (c8_batch_invariant 7 ⟨0, 9⟩ envGood [7]).1 _ hres
  have hb := (c8_batch_invariant 7 ⟨0, 9⟩ envGood [7]).2.1 honest _ hres
  exact ⟨ha.1, ha.2, hb⟩

/-- C10.  The validator takes the round verbatim from the response — it never
sees the requested round — and the batch a submitted payload carries is
exactly the parses of the per-round responses, so the round recorded for a
requested round is whatever the beacon's response said it was. -/
theorem c10_round_passthrough :
    (∀ resp p, try_into_pulse resp = Except.ok p → resp.round = some p.round) ∧
    ∀ (current_block : Int) (chain : ChainView) (env : BeaconEnv) (pk : List Nat)
      (pl : PulsesPayload),
      (submit_new_pulses current_block chain env pk).result = CycleResult.submitted pl →
      List.Forall₂ (fun (r : Int) (p : Pulse) => ∃ resp,
          env.byRound r = Except.ok resp ∧ try_into_pulse resp = Except.ok p ∧
            resp.round = some p.round)
        (submit_new_pulses current_block chain env pk).requestedRounds pl.pulses := by
  have hfst : ∀ resp p, try_into_pulse resp = Except.ok p → resp.round = some p.round :=
    fun resp p h => ((try_into_pulse_ok_iff resp p).mp h).1
  refine ⟨hfst, ?_⟩
  intro current_block chain env pk pl h
  obtain ⟨raw, lp, lsr, reqs, h1, h2, h3, hlsr, hgt, hloop, hne, _, _, htr⟩ :=
    submit_submitted_inv current_block chain env pk pl h
  obtain ⟨hreq, hf⟩ := fetchLoop_ok env.byRound _ _ _ hloop
  have hrr : (submit_new_pulses current_block chain env pk).requestedRounds = reqs := by
    rw [htr]
  rw [hrr, hreq]
  exact List.Forall₂.imp (fun r p hstep => by
    obtain ⟨resp, hb, hp⟩ := hstep
    exact ⟨resp, hb, hp, hfst resp p hp⟩) hf

/-- The beacon environment that answers the request for round 1 with a body
claiming round 5; the latest round is 1 and nothing is stored yet. -/
def envMis : BeaconEnv := ⟨Except.ok (goodRaw 1), fun _ => Except.ok (goodRaw 5)⟩

/-- C10 witness: the cycle requests round 1 but the submitted batch carries
round 5, taken verbatim from the response. -/
theorem c10_round_passthrough_witness :
    List.Forall₂ (fun (r : Int) (p : Pulse) => ∃ resp,
        envMis.byRound r = Except.ok resp ∧ try_into_pulse resp = Except.ok p ∧
          resp.round = some p.round)
      [1] [⟨5, zeros32, []⟩] := by
  have hres : (submit_new_pulses 0 ⟨0, 0⟩ envMis [7]).result =
      CycleResult.submitted ⟨0, [⟨5, zeros32, []⟩], [7]⟩ := by decide
  have h := c10_round_passthrough.2 0 ⟨0, 0⟩ envMis [7] _ hres
  have hreq : (submit_new_pulses 0 ⟨0, 0⟩ envMis [7]).requestedRounds = [1] := by decide
  rw [hreq] at h
  exact h

end Drand
